import Mathlib

/-!
Verification development for the LOOK-DGC forensic toolkit.

The embedding covers:
* `gui/multiplecompression.py` — `MultipleCompressionWidget.run_graph` and
  `run_heatmap` (recompression curve and heatmap), modelled over an abstract
  injected JPEG codec (`cv2.imencode`/`cv2.imdecode` round-trip);
* `validate_deps.py` — `get_required_packages` and `validate_dependencies`,
  modelled over an abstract import environment;
* the loader and histogram utilities (`utility.py`), whose implementation is
  not part of the provided sources (only their unit tests are), modelled from
  the specification where noted.
-/

/-- An 8-bit channel value, as stored in a `uint8` numpy array. -/
abbrev Byte := Fin 256

/-- A 3-channel (BGR) pixel. -/
abbrev Pix := Byte × Byte × Byte

/-- A decoded 3-channel image: the canonical buffer every analyzer consumes.
`data` lists the pixels in row-major order. -/
structure Img where
  height : Nat
  width : Nat
  data : List Pix
deriving DecidableEq, Repr

/-- Absolute difference of two byte values (`cv2.absdiff` on one channel:
`uint8` absolute difference, exact because |a-b| < 256). -/
def byteDist (x y : Byte) : Byte :=
  ⟨Nat.dist x.val y.val, by
    have hx := x.isLt
    have hy := y.isLt
    unfold Nat.dist
    omega⟩

/-- Per-pixel `cv2.absdiff`: channel-wise absolute difference. -/
def pixAbsDiff (p q : Pix) : Pix :=
  (byteDist p.1 q.1, byteDist p.2.1 q.2.1, byteDist p.2.2 q.2.2)

/-- `cv2.absdiff(a, b)`: element-wise absolute difference.  (cv2 requires the
two operands to have identical shapes; theorems that depend on the result
carry that precondition.)  The result inherits `a`'s dimensions. -/
def absdiffImg (a b : Img) : Img :=
  ⟨a.height, a.width, List.zipWith pixAbsDiff a.data b.data⟩

/-- Sum of the absolute channel differences of one pixel pair, as a `Nat`. -/
def pixAbsDiffSum (p q : Pix) : Nat :=
  Nat.dist p.1.val q.1.val + Nat.dist p.2.1.val q.2.1.val + Nat.dist p.2.2.val q.2.2.val

/-- Total absolute difference between two images (numerator of `np.mean`). -/
def sumAbsDiff (a b : Img) : Nat :=
  (List.zipWith pixAbsDiffSum a.data b.data).sum

/-- `np.mean(cv2.absdiff(a, b))`: mean over all `3*h*w` array entries,
as an exact rational. -/
def meanAbsDiff (a b : Img) : ℚ :=
  (sumAbsDiff a b : ℚ) / (3 * a.height * a.width)

/-- The injected lossy codec: `encode(image, quality)` followed by
`decode(bytes)`, i.e. one `cv2.imencode('.jpg', img, [IMWRITE_JPEG_QUALITY, q])`
/ `cv2.imdecode(encimg, 1)` round-trip at quality `q`. -/
abbrev Codec := Nat → Img → Img

/-- The hard-coded quality sweep of `run_graph`
(`qualities = [95, 90, 85, 80, 75, 70, 65, 60, 55, 50]`). -/
def qualities : List Nat := [95, 90, 85, 80, 75, 70, 65, 60, 55, 50]

/-- The body of the `for q in qualities` loop of `run_graph`: one codec
round-trip per quality, appending the requested quality to the call trace
and `(q, np.mean(cv2.absdiff(image, decimg)))` to `diffs`. -/
def run_graph_loop (codec : Codec) (image : Img) :
    List Nat → List Nat × List (Nat × ℚ) → List Nat × List (Nat × ℚ)
  | [], acc => acc
  | q :: qs, (tr, diffs) =>
      let decimg := codec q image
      let diff := meanAbsDiff image decimg
      run_graph_loop codec image qs (tr ++ [q], diffs ++ [(q, diff)])

/-- `MultipleCompressionWidget.run_graph` as a pure computation: returns the
trace of codec round-trips (one per requested quality, in request order) and
the list `diffs` of `(quality, mean difference)` samples. -/
def run_graph (codec : Codec) (image : Img) : List Nat × List (Nat × ℚ) :=
  run_graph_loop codec image qualities ([], [])

/-- `MultipleCompressionWidget.run_heatmap` as a pure computation: one codec
round-trip at quality 70 (the trace), and the raw difference map
`diff_img = cv2.absdiff(self.image, decimg)` before false-coloring. -/
def run_heatmap (codec : Codec) (image : Img) : List Nat × Img :=
  let decimg := codec 70 image
  (([] : List Nat) ++ [70], absdiffImg image decimg)

/-- The mutable state of a `MultipleCompressionWidget`: the stored filename
and image, the `result_label` text, the emitted `info_message` log, and the
pixmap shown in `heatmap_label`. -/
structure WidgetState where
  filename : String
  image : Img
  result_label : String
  messages : List String
  heatmap_label : Option Img

/-- `run_graph` acting on the widget: computes `diffs` from `self.image`,
emits and displays `msg = "Recompression diffs: ..."`, and returns the plotted
samples.  (The matplotlib plotting of `diffs` is presentation only.) -/
def run_graph_widget (codec : Codec) (s : WidgetState) :
    WidgetState × List (Nat × ℚ) :=
  let diffs := (run_graph codec s.image).2
  let msg := "Recompression diffs: " ++ reprStr diffs
  ({ s with result_label := msg, messages := s.messages ++ [msg] }, diffs)

/-- `run_heatmap` acting on the widget: computes the difference map from
`self.image`, false-colors it with the injected
`cv2.applyColorMap(·, COLORMAP_JET)` (presentation), and stores the result in
`heatmap_label`. -/
def run_heatmap_widget (codec : Codec) (applyColorMap : Img → Img)
    (s : WidgetState) : WidgetState :=
  let diff_img := (run_heatmap codec s.image).2
  let heatmap := applyColorMap diff_img
  { s with heatmap_label := some heatmap }

/-- Generalized accumulator form of the `run_graph` loop. -/
theorem run_graph_loop_eq (codec : Codec) (image : Img) (qs : List Nat)
    (tr : List Nat) (diffs : List (Nat × ℚ)) :
    run_graph_loop codec image qs (tr, diffs) =
      (tr ++ qs, diffs ++ qs.map (fun q => (q, meanAbsDiff image (codec q image)))) := by
  induction qs generalizing tr diffs with
  | nil => simp [run_graph_loop]
  | cons q qs ih =>
      simp only [run_graph_loop, ih, List.map_cons, List.append_assoc,
        List.cons_append, List.nil_append, List.singleton_append]

/-- The samples `run_graph` produces are exactly one per quality, in order. -/
theorem run_graph_eq (codec : Codec) (image : Img) :
    run_graph codec image =
      (qualities, qualities.map (fun q => (q, meanAbsDiff image (codec q image)))) := by
  simpa using run_graph_loop_eq codec image qualities [] []

/-- A tiny concrete 1×2 image used to witness theorems with hypotheses. -/
def testImg : Img := ⟨1, 2, [((0, 0, 0) : Pix), ((10, 20, 30) : Pix)]⟩

/-- An identity codec (a deterministic codec whose round-trip is lossless),
used to witness theorems quantified over the injected codec. -/
def idCodec : Codec := fun _ img => img

/-- A concrete widget state over `testImg`. -/
def testState : WidgetState := ⟨"img.jpg", testImg, "", [], none⟩

/-- C1: for every image, the curve computed by `run_graph` contains one
sample per quality of `[95, 90, 85, 80, 75, 70, 65, 60, 55, 50]` (scanned
high to low), each sample being `(q, mean absolute difference between the
image and its codec round-trip at q)`, in the input quality order. -/
theorem run_graph_one_sample_per_quality (codec : Codec) (image : Img) :
    (run_graph codec image).2 =
      qualities.map (fun q => (q, meanAbsDiff image (codec q image))) ∧
    (run_graph codec image).2.length = qualities.length := by
  simp [run_graph_eq]

/-- C2: the curve computation is deterministic: two widgets holding the same
image produce identical sample sequences, and re-running `run_graph` on the
same widget reproduces the same samples bit-for-bit. -/
theorem run_graph_deterministic (codec : Codec) (s t : WidgetState)
    (h : s.image = t.image) :
    (run_graph_widget codec s).2 = (run_graph_widget codec t).2 ∧
    (run_graph_widget codec ((run_graph_widget codec s).1)).2 =
      (run_graph_widget codec s).2 := by
  constructor
  · simp [run_graph_widget, h]
  · simp [run_graph_widget]

/-- Witness for C2: determinism instantiated at a concrete widget state and
the identity codec. -/
theorem run_graph_deterministic_witness :
    testState.image = testState.image ∧
    ((run_graph_widget idCodec testState).2 = (run_graph_widget idCodec testState).2 ∧
     (run_graph_widget idCodec ((run_graph_widget idCodec testState).1)).2 =
       (run_graph_widget idCodec testState).2) :=
  ⟨rfl, run_graph_deterministic idCodec testState testState rfl⟩

/-- C9: `run_graph` takes no quality parameter; whatever the codec and image,
it emits exactly 10 samples whose quality keys are the hard-coded sequence
95, 90, 85, 80, 75, 70, 65, 60, 55, 50, in that order. -/
theorem run_graph_fixed_qualities (codec : Codec) (image : Img) :
    (run_graph codec image).2.length = 10 ∧
    (run_graph codec image).2.map Prod.fst =
      [95, 90, 85, 80, 75, 70, 65, 60, 55, 50] := by
  have h := run_graph_eq codec image
  constructor
  · simp [h, qualities]
  · simp [h, qualities]

/-- C4: no analyzer mutates the canonical image: after `run_graph` and after
`run_heatmap`, the widget's stored image is the same buffer as before. -/
theorem widget_image_immutable (codec : Codec) (applyColorMap : Img → Img)
    (s : WidgetState) :
    (run_graph_widget codec s).1.image = s.image ∧
    (run_heatmap_widget codec applyColorMap s).image = s.image := by
  exact ⟨rfl, rfl⟩

/-- C3: `run_heatmap` performs exactly one codec round-trip, at quality 70,
and its difference map has the input's dimensions and holds the per-pixel
absolute difference between the original and the round-tripped image. -/
theorem run_heatmap_diff_map (codec : Codec) (image : Img)
    (hh : (codec 70 image).height = image.height)
    (hw : (codec 70 image).width = image.width)
    (hd : (codec 70 image).data.length = image.data.length) :
    (run_heatmap codec image).1 = [70] ∧
    (run_heatmap codec image).2.height = image.height ∧
    (run_heatmap codec image).2.width = image.width ∧
    (run_heatmap codec image).2.data.length = image.data.length ∧
    ∀ k (hk1 : k < image.data.length) (hk2 : k < (codec 70 image).data.length)
      (hk3 : k < (run_heatmap codec image).2.data.length),
      (run_heatmap codec image).2.data.get ⟨k, hk3⟩ =
        pixAbsDiff image.data[k] (codec 70 image).data[k] := by
  refine ⟨rfl, rfl, rfl, ?_, ?_⟩
  · simp [run_heatmap, absdiffImg, hd]
  · intro k hk1 hk2 hk3
    simp only [run_heatmap, absdiffImg, List.get_eq_getElem]
    exact List.getElem_zipWith

/-- Witness for C3: the heatmap theorem instantiated at `testImg` with the
identity codec. -/
theorem run_heatmap_diff_map_witness :
    ((idCodec 70 testImg).height = testImg.height ∧
     (idCodec 70 testImg).width = testImg.width ∧
     (idCodec 70 testImg).data.length = testImg.data.length) ∧
    ((run_heatmap idCodec testImg).1 = [70] ∧
     (run_heatmap idCodec testImg).2.height = testImg.height ∧
     (run_heatmap idCodec testImg).2.width = testImg.width ∧
     (run_heatmap idCodec testImg).2.data.length = testImg.data.length ∧
     ∀ k (hk1 : k < testImg.data.length)
       (hk2 : k < (idCodec 70 testImg).data.length)
       (hk3 : k < (run_heatmap idCodec testImg).2.data.length),
       (run_heatmap idCodec testImg).2.data.get ⟨k, hk3⟩ =
         pixAbsDiff testImg.data[k] (idCodec 70 testImg).data[k]) :=
  ⟨⟨rfl, rfl, rfl⟩, run_heatmap_diff_map idCodec testImg rfl rfl rfl⟩

/-- `validate_deps.get_required_packages`: the fixed dictionary of required
packages mapped to their import names, in insertion order. -/
def get_required_packages : List (String × String) :=
  [("PySide6", "PySide6"),
   ("opencv-contrib-python-headless", "cv2"),
   ("numpy", "numpy"),
   ("Pillow", "PIL"),
   ("matplotlib", "matplotlib"),
   ("pandas", "pandas"),
   ("scikit-learn", "sklearn"),
   ("lxml", "lxml"),
   ("python-magic", "magic"),
   ("rawpy", "rawpy"),
   ("sewar", "sewar"),
   ("PyWavelets", "pywt"),
   ("astor", "astor"),
   ("concurrent-iterator", "concurrent_iterator"),
   ("keras-applications", "keras_applications"),
   ("xgboost", "xgboost")]

/-- `validate_deps.check_package`, over an abstract import environment
`env : import name → importable?`: returns availability and a status line. -/
def check_package (env : String → Bool) (package_name import_name : String) :
    Bool × String :=
  if env import_name then (true, "ok: " ++ package_name)
  else (false, "missing: " ++ package_name)

/-- `validate_deps.check_tensorflow`, over an abstract TensorFlow
availability flag: optional check, used only for console output. -/
def check_tensorflow (tfEnv : Bool) : Bool × String :=
  if tfEnv then (true, "TensorFlow is available")
  else (false, "TensorFlow not found")

/-- The body of the `for package_name, import_name in ...` loop of
`validate_dependencies`: append the package name to `available_packages` or
to `missing_packages` according to `check_package`. -/
def dep_step (env : String → Bool) (acc : List String × List String)
    (p : String × String) : List String × List String :=
  if (check_package env p.1 p.2).1 then (acc.1 ++ [p.1], acc.2)
  else (acc.1, acc.2 ++ [p.1])

/-- `validate_deps.validate_dependencies` (console printing elided): checks
TensorFlow (result unused in the returned value), partitions the required
packages into available and missing, and returns
`(len(missing_packages) == 0, available_packages, missing_packages)`. -/
def validate_dependencies (tfEnv : Bool) (env : String → Bool) :
    Bool × List String × List String :=
  let _tf_check := check_tensorflow tfEnv
  let r := get_required_packages.foldl (dep_step env) ([], [])
  (r.2.length == 0, r.1, r.2)

/-- Generalized accumulator form of the `validate_dependencies` loop. -/
theorem dep_loop_eq (env : String → Bool) (ps : List (String × String))
    (av ms : List String) :
    ps.foldl (dep_step env) (av, ms) =
      (av ++ (ps.filter (fun p => env p.2)).map Prod.fst,
       ms ++ (ps.filter (fun p => !env p.2)).map Prod.fst) := by
  induction ps generalizing av ms with
  | nil => simp
  | cons p ps ih =>
      by_cases h : env p.2 = true
      · simp [dep_step, check_package, h, ih, List.filter_cons]
      · simp only [Bool.not_eq_true] at h
        simp [dep_step, check_package, h, ih, List.filter_cons]

/-- The package names in `get_required_packages` are pairwise distinct. -/
theorem required_names_nodup : (get_required_packages.map Prod.fst).Nodup := by
  decide

/-- C10: `validate_dependencies` returns `(all_good, available, missing)`
where `all_good` is true iff `missing` is empty; `available` and `missing`
partition the 16-entry required-package set in dictionary order (each package
lands in exactly one list); and the TensorFlow flag has no effect on the
result. -/
theorem validate_dependencies_spec (tf tf2 : Bool) (env : String → Bool) :
    ((validate_dependencies tf env).1 = true ↔
      (validate_dependencies tf env).2.2 = []) ∧
    get_required_packages.length = 16 ∧
    (validate_dependencies tf env).2.1 =
      (get_required_packages.filter (fun p => env p.2)).map Prod.fst ∧
    (validate_dependencies tf env).2.2 =
      (get_required_packages.filter (fun p => !env p.2)).map Prod.fst ∧
    (∀ p ∈ get_required_packages,
      (p.1 ∈ (validate_dependencies tf env).2.1 ∧
        p.1 ∉ (validate_dependencies tf env).2.2) ∨
      (p.1 ∉ (validate_dependencies tf env).2.1 ∧
        p.1 ∈ (validate_dependencies tf env).2.2)) ∧
    (validate_dependencies tf env).2.1.Sublist (get_required_packages.map Prod.fst) ∧
    (validate_dependencies tf env).2.2.Sublist (get_required_packages.map Prod.fst) ∧
    validate_dependencies tf env = validate_dependencies tf2 env := by
  have hav : (validate_dependencies tf env).2.1 =
      (get_required_packages.filter (fun p => env p.2)).map Prod.fst := by
    simp [validate_dependencies, dep_loop_eq]
  have hms : (validate_dependencies tf env).2.2 =
      (get_required_packages.filter (fun p => !env p.2)).map Prod.fst := by
    simp [validate_dependencies, dep_loop_eq]
  have hinj := List.inj_on_of_nodup_map required_names_nodup
  refine ⟨?_, by decide, hav, hms, ?_, ?_, ?_, ?_⟩
  · constructor
    · intro h
      have : (validate_dependencies tf env).2.2.length = 0 := by
        simpa [validate_dependencies] using
          (by simpa [validate_dependencies] using h : _)
      exact List.eq_nil_of_length_eq_zero this
    · intro h
      simp [validate_dependencies] at h ⊢
      simp [h]
  · intro p hp
    by_cases h : env p.2 = true
    · refine Or.inl ⟨?_, ?_⟩
      · rw [hav]
        exact List.mem_map_of_mem _ (List.mem_filter.mpr ⟨hp, by simp [h]⟩)
      · rw [hms]
        intro hmem
        rcases List.mem_map.mp hmem with ⟨p2, hp2, hfst⟩
        rcases List.mem_filter.mp hp2 with ⟨hp2mem, hp2env⟩
        have : p2 = p := hinj hp2mem hp hfst
        subst this
        simp [h] at hp2env
    · refine Or.inr ⟨?_, ?_⟩
      · rw [hav]
        intro hmem
        rcases List.mem_map.mp hmem with ⟨p2, hp2, hfst⟩
        rcases List.mem_filter.mp hp2 with ⟨hp2mem, hp2env⟩
        have : p2 = p := hinj hp2mem hp hfst
        subst this
        exact h hp2env
      · rw [hms]
        exact List.mem_map_of_mem _
          (List.mem_filter.mpr ⟨hp, by simp [Bool.not_eq_true] at h ⊢; exact h⟩)
  · rw [hav]
    exact List.Sublist.map Prod.fst (List.filter_sublist _)
  · rw [hms]
    exact List.Sublist.map Prod.fst (List.filter_sublist _)
  · simp [validate_dependencies]

/-- A single-channel (grayscale) image: `data` lists the pixel values in
row-major order and has exactly `width * height` entries. -/
structure GrayImg where
  height : Nat
  width : Nat
  data : List Byte
  size_eq : data.length = width * height

/-- Modelled from the spec: `computeHistogram(image)` — the implementation
`utility.compute_hist` is exercised by `tests/unit/test_utility.py` but
`utility.py` itself is not among the provided sources.  Spec §4.3:
"single-channel 256-bin count; invariant `sum(histogram) == pixelCount`". -/
def compute_hist (img : GrayImg) : List Nat :=
  (List.range 256).map (fun v => img.data.countP (fun b => b.val == v))

/-- Sums of pointwise-added maps split. -/
theorem sum_map_add_aux (l : List Nat) (f g : Nat → Nat) :
    (l.map (fun v => f v + g v)).sum = (l.map f).sum + (l.map g).sum := by
  induction l with
  | nil => simp
  | cons a l ih =>
      simp only [List.map_cons, List.sum_cons, ih]
      omega

/-- The indicator of a value below `n` sums to 1 over `range n`. -/
theorem sum_indicator_range (n a : Nat) (ha : a < n) :
    ((List.range n).map (fun v => if a = v then 1 else 0)).sum = 1 := by
  induction n with
  | zero => omega
  | succ n ih =>
      rw [List.range_succ]
      by_cases h : a = n
      · subst h
        have hz : ((List.range a).map (fun v => if a = v then 1 else 0)).sum = 0 := by
          apply List.sum_eq_zero
          intro x hx
          rcases List.mem_map.mp hx with ⟨v, hv, hvx⟩
          have := List.mem_range.mp hv
          rw [← hvx, if_neg]
          omega
        simp [hz]
      · have ha2 : a < n := by omega
        simp [ih ha2, h]

/-- The 256 bin counts of a byte list sum to its length. -/
theorem hist_sum (xs : List Byte) :
    ((List.range 256).map (fun v => xs.countP (fun b => b.val == v))).sum =
      xs.length := by
  induction xs with
  | nil =>
      simp only [List.length_nil]
      apply List.sum_eq_zero
      intro x hx
      rcases List.mem_map.mp hx with ⟨v, _, hvx⟩
      rw [← hvx, List.countP_nil]
  | cons x xs ih =>
      have hstep : ∀ v, (x :: xs).countP (fun b => b.val == v) =
          xs.countP (fun b => b.val == v) + if x.val = v then 1 else 0 := by
        intro v
        rw [List.countP_cons]
        by_cases h : x.val = v <;> simp [h]
      simp only [hstep]
      rw [sum_map_add_aux, ih, sum_indicator_range 256 x.val x.isLt]
      simp

/-- C7: for every single-channel image, `compute_hist` yields exactly 256
non-negative bins whose total equals the pixel count `width * height`. -/
theorem compute_hist_spec (img : GrayImg) :
    (compute_hist img).length = 256 ∧
    (∀ c ∈ compute_hist img, 0 ≤ c) ∧
    (compute_hist img).sum = img.width * img.height := by
  refine ⟨by simp [compute_hist], fun c _ => Nat.zero_le c, ?_⟩
  rw [compute_hist, hist_sum, img.size_eq]

/-- A 4-channel (BGRA) decoded buffer, pixels in row-major order. -/
structure Img4 where
  height : Nat
  width : Nat
  data : List (Byte × Byte × Byte × Byte)

/-- A single-channel decoded buffer, pixels in row-major order. -/
structure Img1 where
  height : Nat
  width : Nat
  data : List Byte

/-- Raw decoded input presented to the loader: 1, 3 or 4 channels. -/
inductive RawDecoded where
  | gray (g : Img1)
  | bgr (c : Img)
  | bgra (a : Img4)

/-- Modelled from the spec: the channel-normalization step of
`utility.load_image` — exercised by `tests/unit/test_image_loading.py` but
`utility.py` itself is not among the provided sources.  Spec §4.1:
single-channel input is replicated into all three output channels; 3-channel
input passes through; 4-channel input drops the 4th (alpha) channel and the
remaining 3 channels pass through unchanged, with no alpha compositing. -/
def load_image : RawDecoded → Img
  | .gray g => ⟨g.height, g.width, g.data.map (fun v => (v, v, v))⟩
  | .bgr c => c
  | .bgra a => ⟨a.height, a.width, a.data.map (fun p => (p.1, p.2.1, p.2.2.1))⟩

/-- C8: for every 4-channel (BGRA) buffer, the loader produces a 3-channel
image of the same dimensions whose three channels equal the source's first
three channels exactly (alpha is discarded, not composited). -/
theorem load_image_bgra_channels (a : Img4) :
    (load_image (.bgra a)).height = a.height ∧
    (load_image (.bgra a)).width = a.width ∧
    (load_image (.bgra a)).data.length = a.data.length ∧
    (load_image (.bgra a)).data.map (fun p => p.1) =
      a.data.map (fun p => p.1) ∧
    (load_image (.bgra a)).data.map (fun p => p.2.1) =
      a.data.map (fun p => p.2.1) ∧
    (load_image (.bgra a)).data.map (fun p => p.2.2) =
      a.data.map (fun p => p.2.2.1) := by
  refine ⟨rfl, rfl, ?_, ?_, ?_, ?_⟩ <;> simp [load_image]
